import Mathlib

/-!
Shallow embedding of the twarc retrieval engine (src/twarc.py): quota
tracking (`TwitterClient.check` / `ping`), the retrying fetch executor
(`TwitterClient.fetch`), search pagination (`search` / `search_result`),
the stream reader (`stream`), hydration batching (`hydrate` and
`TwitterClient.hydrate`), and the resume planner (`most_recent_id` /
`last_archive`).

Modelling conventions: records are represented by their integer
identifiers; timestamps are integers (the Python code uses floats, but
only order and differences matter here); network responses are supplied
as explicit sequences; JSON parsing of archive lines is an oracle
function, since only the parse outcome matters to the code under study.
-/

namespace Twarc

/-- Quota state of a `TwitterClient`: `remaining` calls and the quota
`reset` time (`None` before the first probe), per `__init__` and `ping`. -/
structure QuotaState where
  remaining : Int
  reset : Option Int
deriving DecidableEq

/-- One probe response, as consumed by `TwitterClient.ping`: either the
JSON body has a `resources` object (body values are used) or the rate
limit values are taken from the HTTP headers. -/
structure PingResp where
  hasResources : Bool
  bodyReset : Int
  bodyRemaining : Int
  headerReset : Int
  headerRemaining : Int
deriving DecidableEq

/-- Effect of `TwitterClient.ping` on the quota state: an absolute
overwrite of `remaining` and `reset` from the probe response. -/
def applyPing (p : PingResp) : QuotaState :=
  if p.hasResources then ⟨p.bodyRemaining, some p.bodyReset⟩
  else ⟨p.headerRemaining, some p.headerReset⟩

/-- Python truthiness of `self.reset` in `check`: falsy when `None` or
when the stored integer is `0`. -/
def pyTruthy : Option Int → Bool
  | none => false
  | some v => v != 0

/-- The integer value of the reset field (only consulted under
`pyTruthy`). -/
def resetVal (s : QuotaState) : Int := s.reset.getD 0

/-- One sleep performed inside the `check` blocking loop, recording the
current clock value, the quota state at that moment, and the slept
duration in seconds. -/
structure SleepEv where
  now : Int
  stBefore : QuotaState
  dur : Int
deriving DecidableEq

/-- The `while self.remaining <= 1` loop of `TwitterClient.check`: each
blocked iteration reads the clock, sleeps either until `reset + 5` (when
a truthy future reset is known) or 1 second, then re-probes via `ping`.
The supply list provides, per iteration, the clock value and the probe
response; `none` models exhausting the supply while still blocked.
Returns the state at loop exit (before the decrement), the sleep trace,
and the unconsumed supply. -/
def checkLoop : QuotaState → List (Int × PingResp) →
    Option (QuotaState × List SleepEv × List (Int × PingResp))
  | s, [] => if 1 < s.remaining then some (s, [], []) else none
  | s, (now, p) :: rest =>
    if 1 < s.remaining then some (s, [], (now, p) :: rest)
    else
      match checkLoop (applyPing p) rest with
      | none => none
      | some (s2, evs, rem) =>
        some (s2,
          ⟨now, s,
            if pyTruthy s.reset = true ∧ now < resetVal s then resetVal s - now + 5
            else 1⟩ :: evs, rem)

/-- `TwitterClient.check`: run the blocking loop and then decrement
`remaining` by one on admission. -/
def check (s : QuotaState) (supply : List (Int × PingResp)) :
    Option (QuotaState × List SleepEv × List (Int × PingResp)) :=
  match checkLoop s supply with
  | none => none
  | some (s2, evs, rem) => some (⟨s2.remaining - 1, s2.reset⟩, evs, rem)

/-- The client-side environment threaded through a run: quota state, the
remaining probe supply for `check`, the number of network calls issued by
`fetch`/`hydrate` attempts so far, and the chronological list of sleep
durations. -/
structure Env where
  quota : QuotaState
  pings : List (Int × PingResp)
  calls : Nat
  sleeps : List Int
deriving DecidableEq

/-- Outcome of one `self.client.get(url)` inside `fetch`: a 200 response
with parsed body, a non-200 status, or a transport-level exception. -/
inductive FetchResp (α : Type) where
  | ok (body : α)
  | err (status : Int)
  | exn
deriving DecidableEq

/-- Result of `TwitterClient.fetch`: the parsed body on success, or the
message of the exception raised on exhaustion. -/
inductive FetchOutcome (α : Type) where
  | success (body : α)
  | failure (msg : String)
deriving DecidableEq

/-- `TwitterClient.fetch(url, tries)`. Faithful to the source: at
`tries == 0` it raises `"unable to fetch <url> - too many tries!"`;
otherwise it sleeps 1 second, runs `check`, issues the GET (responses
indexed by `Env.calls`), returns the body on status 200, on any other
status sleeps `(6 - tries) * 2` seconds and recurses inside the `try`
block — so a failure of that recursion is caught by `except` and the
recursion is run once more — and on a transport exception recurses from
the `except` handler without a backoff sleep. `none` models a run whose
`check` probe supply is exhausted. -/
def fetchGo {α : Type} (resp : Nat → FetchResp α) (url : String) :
    Nat → Env → Option (FetchOutcome α × Env)
  | 0, env => some (.failure ("unable to fetch " ++ url ++ " - too many tries!"), env)
  | t+1, env =>
    match check env.quota env.pings with
    | none => none
    | some (q, evs, rem) =>
      match resp env.calls with
      | .ok b =>
        some (.success b,
          ⟨q, rem, env.calls + 1, (env.sleeps ++ [(1 : Int)]) ++ evs.map SleepEv.dur⟩)
      | .err _ =>
        match fetchGo resp url t
            ⟨q, rem, env.calls + 1,
              ((env.sleeps ++ [(1 : Int)]) ++ evs.map SleepEv.dur) ++
                [(6 - ((t : Int) + 1)) * 2]⟩ with
        | none => none
        | some (.success b, env4) => some (.success b, env4)
        | some (.failure _, env4) => fetchGo resp url t env4
      | .exn =>
        fetchGo resp url t
          ⟨q, rem, env.calls + 1, (env.sleeps ++ [(1 : Int)]) ++ evs.map SleepEv.dur⟩

/-- `TwitterClient.fetch` with its default budget of 5 tries. -/
def fetch {α : Type} (resp : Nat → FetchResp α) (url : String) (env : Env) :
    Option (FetchOutcome α × Env) :=
  fetchGo resp url 5 env

/-- Outcome of the single `self.client.post` inside
`TwitterClient.hydrate`: a response whose JSON body is a list of tweets,
or an exception. -/
inductive PostResult (α : Type) where
  | ok (body : α)
  | exn
deriving DecidableEq

/-- `TwitterClient.hydrate(ids)`: runs `check` once, then issues exactly
one POST whose body is the comma-joined identifier list and yields the
response's tweets. There is no retry and no status check; a transport
exception propagates (modelled as the inner `none`). The outer `none`
models an exhausted `check` probe supply. -/
def client_hydrate (post : String → PostResult (List Nat)) (ids : List String)
    (env : Env) : Option (Option (List Nat) × Env) :=
  match check env.quota env.pings with
  | none => none
  | some (q, evs, rem) =>
    match post (String.intercalate "," ids) with
    | .ok tweets =>
      some (some tweets, ⟨q, rem, env.calls + 1, env.sleeps ++ evs.map SleepEv.dur⟩)
    | .exn =>
      some (none, ⟨q, rem, env.calls + 1, env.sleeps ++ evs.map SleepEv.dur⟩)

/-- `TwitterClient.__init__`: the quota state starts as
`remaining = 0, reset = None` and is immediately overwritten by the
constructor's `ping()`, before any fetch. -/
def clientInit (p : PingResp) : QuotaState := applyPing p

/-- The URL built by `search_result` (lines 176-181): base search URL
plus `since_id`/`max_id` parameters when those values are truthy. The
`quote(q, safe='')` URL-encoding of the query is not modelled. -/
def search_url (q : String) (since_id max_id : Option Int) : String :=
  let u0 := "https://api.twitter.com/1.1/search/tweets.json?count=100&q=" ++ q
  let u1 := if pyTruthy since_id then u0 ++ "&since_id=" ++ toString (since_id.getD 0)
            else u0
  if pyTruthy max_id then u1 ++ "&max_id=" ++ toString (max_id.getD 0) else u1

/-- Lines 186-189 of `search_result`: the recomputed bound is the last
listed (oldest) record's identifier plus one when the page is non-empty,
otherwise the incoming `max_id`. -/
def new_max_id_of (statuses : List Int) (max_id : Option Int) : Option Int :=
  match statuses.getLast? with
  | some lastId => some (lastId + 1)
  | none => max_id

/-- Lines 184-195 of `search_result`: when the recomputed bound equals
the incoming one (cursor fixed point) the page is reported empty with the
bound unchanged; otherwise the statuses and the new bound are returned. -/
def search_result_page (statuses : List Int) (max_id : Option Int) :
    List Int × Option Int :=
  let nm := new_max_id_of statuses max_id
  if max_id = nm then ([], max_id) else (statuses, nm)

/-- The per-page inputs of one `search_result` call: the constructor
probe response of the fresh `TwitterClient`, the probe supply for its
`check` calls, and the GET responses for its `fetch` attempts. -/
structure PageSupply where
  initPing : PingResp
  checkPings : List (Int × PingResp)
  resp : Nat → FetchResp (List Int)

/-- `search_result(q, since_id, max_id)` (lines 172-195): constructs a
fresh `TwitterClient` (fresh quota state from the constructor probe, zero
calls, empty sleep log), fetches one page with the 5-try executor, and
applies the fixed-point/new-bound logic. `none` models a run that raised
out of `fetch` or blocked forever in `check`. -/
def search_result (q : String) (since_id max_id : Option Int)
    (ps : PageSupply) : Option ((List Int × Option Int) × Env) :=
  match fetchGo ps.resp (search_url q since_id max_id) 5
      ⟨clientInit ps.initPing, ps.checkPings, 0, []⟩ with
  | none => none
  | some (.failure _, _) => none
  | some (.success statuses, env2) =>
    some (search_result_page statuses max_id, env2)

/-- The `while True` loop of `search(q, ...)` (lines 140-145), fuelled:
each step calls `search_result` with the current `max_id`, stops when the
returned page is empty, otherwise yields the statuses and continues with
the new bound. Alongside the yielded records it returns the quota state
each executed page's fetch started from. The post-loop scrape handoff is
outside the scope of the modelled claims. -/
def search (supplies : Nat → PageSupply) (q : String) (since_id : Option Int) :
    Nat → Option Int → Nat → Option (List Int × List QuotaState)
  | 0, _, _ => some ([], [])
  | n+1, max_id, k =>
    match search_result q since_id max_id (supplies k) with
    | none => none
    | some ((results, max_id2), _) =>
      if results.isEmpty then some ([], [clientInit (supplies k).initPing])
      else
        match search supplies q since_id n max_id2 (k+1) with
        | none => none
        | some (rest, qs) =>
          some (results ++ rest, clientInit (supplies k).initPing :: qs)

/-- The per-line body of `stream`: each line either JSON-parses to a
record (`some v`, yielded) or fails to parse (`none`, logged and
skipped). -/
def processLines : List (Option Nat) → List Nat
  | [] => []
  | some v :: rest => v :: processLines rest
  | none :: rest => processLines rest

/-- The `while True` loop of `stream(q)` (lines 162-169), fuelled: each
iteration opens one streaming connection (`conns k` is the sequence of
lines that connection delivers before it ends), yields its parseable
lines, and unconditionally loops to open the next connection. Returns the
yielded records and the index after the last opened connection. -/
def streamRun (conns : Nat → List (Option Nat)) : Nat → Nat → List Nat × Nat
  | 0, k => ([], k)
  | n+1, k =>
    match streamRun conns n (k+1) with
    | (rest, k2) => (processLines (conns k) ++ rest, k2)

/-- The batching loop of module-level `hydrate(tweet_ids)` (lines
293-308): each identifier is stripped and appended to the pending batch,
which is flushed at exactly 100; a final non-empty partial batch is
flushed at end of input. -/
def hydrate_batches_go (acc : List String) : List String → List (List String)
  | [] => if 0 < acc.length then [acc] else []
  | tid :: rest =>
    if (acc ++ [tid.trim]).length = 100 then
      (acc ++ [tid.trim]) :: hydrate_batches_go [] rest
    else hydrate_batches_go (acc ++ [tid.trim]) rest

/-- The batches that `hydrate(tweet_ids)` sends to
`TwitterClient.hydrate`, in order. -/
def hydrate_batches (ids : List String) : List (List String) :=
  hydrate_batches_go [] ids

/-- The request bodies of the bulk lookup calls issued by `hydrate`: one
comma-joined body per batch (the join performed by
`TwitterClient.hydrate`). -/
def hydrate_calls (ids : List String) : List String :=
  (hydrate_batches ids).map (fun b => String.intercalate "," b)

/-- One candidate file of the working directory as inspected by
`last_archive` / `most_recent_id`: its name, its size in bytes, and its
first `readline()` result. -/
structure AFile where
  name : String
  size : Nat
  line : String
deriving DecidableEq

/-- Whether a character is an ASCII digit, as `\d` matches it (code
point between 48 and 57). -/
def isDigitB (c : Char) : Bool := 48 ≤ c.toNat && c.toNat ≤ 57

/-- Strip an expected prefix from a character list, returning the
remainder when the prefix matches. -/
def dropPrefixB : List Char → List Char → Option (List Char)
  | [], fn => some fn
  | _ :: _, [] => none
  | p :: ps, c :: cs => if p = c then dropPrefixB ps cs else none

/-- Whether a character list consists of one or more digits followed by
exactly `.json`. -/
def digitsDotJson : List Char → Bool
  | [] => false
  | c :: cs =>
    if isDigitB c then
      if cs = ['.', 'j', 's', 'o', 'n'] then true else digitsDotJson cs
    else false

/-- The filename test of `last_archive`:
`re.match("^<q>-\d+\.json$", filename)`, with the query taken as a
regex-literal string (the claims only involve metacharacter-free
queries): the name is `q`, a dash, one or more digits, and the suffix
`.json`. Implemented over the strings' character lists, since only those
kernel-evaluate. -/
def matches_archive_pattern (q fn : String) : Bool :=
  match dropPrefixB (q.data ++ [Char.ofNat 45]) fn.data with
  | none => false
  | some rest => digitsDotJson rest

/-- Lexicographic (code-point) order on character lists, as Python
compares strings when sorting archive filenames. -/
def listLeB : List Char → List Char → Bool
  | [], _ => true
  | _ :: _, [] => false
  | a :: as, b :: bs =>
    if a.toNat < b.toNat then true
    else if b.toNat < a.toNat then false
    else listLeB as bs

/-- Filename comparison used by `other_archive_files.sort()`. -/
def nameLeB (a b : String) : Bool := listLeB a.data b.data

/-- Lexicographic insertion by filename, implementing the effect of
`other_archive_files.sort()`. -/
def insertByName (f : AFile) : List AFile → List AFile
  | [] => [f]
  | g :: rest =>
    if nameLeB f.name g.name then f :: g :: rest else g :: insertByName f rest

/-- Ascending sort by filename (`other_archive_files.sort()`). -/
def sortByName : List AFile → List AFile
  | [] => []
  | f :: rest => insertByName f (sortByName rest)

/-- The `while ... pop()` loop of `last_archive`: scan from the largest
filename down, returning the first file of positive size. -/
def popLoop : List AFile → Option AFile
  | [] => none
  | f :: rest => if 0 < f.size then some f else popLoop rest

/-- `last_archive(q)` (lines 211-221): filter the directory listing by
the archive pattern, sort ascending, and pop from the end until a file of
positive size is found. -/
def last_archive (q : String) (dir : List AFile) : Option AFile :=
  popLoop (sortByName (dir.filter (fun f => matches_archive_pattern q f.name))).reverse

/-- Result of `json.loads(line)["id_str"]` on a first line, supplied as
an oracle: the line is not valid JSON (`loads` raises), or it parses to
an object carrying `id_str`, or it parses but the `id_str` indexing
raises. -/
inductive LineParse where
  | notJson
  | objWithId (idStr : String)
  | noIdStr
deriving DecidableEq

/-- Observable outcome of `most_recent_id`: a returned value or a raised
exception. -/
inductive MRIOutcome where
  | ret (sinceId : Option String)
  | raised
deriving DecidableEq

/-- `most_recent_id(q)` (lines 198-208): take the last archive file; if
none, return `None`; otherwise read its first line; if that line is
empty, return `None`; otherwise `json.loads(line)["id_str"]` either
yields the identifier or raises. -/
def most_recent_id (jsonParse : String → LineParse) (q : String)
    (dir : List AFile) : MRIOutcome :=
  match last_archive q dir with
  | none => .ret none
  | some f =>
    if f.line = "" then .ret none
    else
      match jsonParse f.line with
      | .objWithId i => .ret (some i)
      | _ => .raised

/-- Abstract description of the batch sizes `hydrate_batches_go`
produces, as a function of the pending-batch size and the number of
identifiers still to consume. -/
def batchSizes (a : Nat) : Nat → List Nat
  | 0 => if 0 < a then [a] else []
  | n+1 =>
    if a + 1 = 100 then 100 :: batchSizes 0 n else batchSizes (a + 1) n

/-- A probe response granting 100 remaining calls with reset time 1000,
used as a concrete input. -/
def pingA : PingResp := ⟨true, 1000, 100, 0, 0⟩

/-- A client environment with 100 remaining calls, no known reset, no
probe supply, and empty call and sleep logs. -/
def env0 : Env := ⟨⟨100, none⟩, [], 0, []⟩

/-- A response sequence in which every attempt gets HTTP status 500. -/
def allErr500 : Nat → FetchResp Nat := fun _ => .err 500

/-- A response sequence whose first attempt hits a transport exception
and whose later attempts succeed with body `7`. -/
def exnThenOk : Nat → FetchResp Nat := fun k => if k = 0 then .exn else .ok 7

/-- A response sequence in which every attempt hits a transport
exception. -/
def allExn : Nat → FetchResp Nat := fun _ => .exn

/-- A response sequence with four leading non-200 failures followed by a
success with body `b`. -/
def err4ThenOk (b : Nat) : Nat → FetchResp Nat :=
  fun k => if k < 4 then .err 500 else .ok b

/-- A bulk-lookup POST that always hits a transport exception. -/
def postExn : String → PostResult (List Nat) := fun _ => .exn

/-- A page supply whose fetches always succeed with an empty status
list. -/
def emptyPageSupply : Nat → PageSupply :=
  fun _ => ⟨pingA, [], fun _ => .ok []⟩

/-- A page supply whose fetches always succeed with the two-status page
`[12, 9]` (ids listed newest first). -/
def fixedPageSupply : Nat → PageSupply :=
  fun _ => ⟨pingA, [], fun _ => .ok [12, 9]⟩

/-- The quota state produced by `clientInit pingA`. -/
def q0 : QuotaState := ⟨100, some 1000⟩

/-- Streaming connections that all end immediately, delivering no
lines. -/
def emptyConns : Nat → List (Option Nat) := fun _ => []

/-- A line-parse oracle under which no line is valid JSON. -/
def parseNoJson : String → LineParse := fun _ => .notJson

/-- The directory of the resume-planner example: a newer empty archive
file and an older non-empty one whose first line is `"L"`. -/
def dir10 : List AFile :=
  [⟨"q-20200101000000.json", 0, ""⟩, ⟨"q-20191231235900.json", 10, "L"⟩]

/-- The file `last_archive` selects from `dir10`. -/
def f10 : AFile := ⟨"q-20191231235900.json", 10, "L"⟩

/-- Projection used to state call-count facts about `fetchGo` results. -/
def callsOf {α : Type} : Option (FetchOutcome α × Env) → Option Nat
  | none => none
  | some (_, e) => some e.calls

/-- Invariants of the `check` blocking loop: the loop exits only with
more than one remaining call, and every sleep happens at a blocked state,
lasting until `reset + 5` when a truthy future reset is known and exactly
one second otherwise. -/
theorem checkLoop_spec (l : List (Int × PingResp)) :
    ∀ (s s0 : QuotaState) (evs : List SleepEv) (rem : List (Int × PingResp)),
    checkLoop s l = some (s0, evs, rem) →
    1 < s0.remaining ∧
    ∀ ev ∈ evs, ev.stBefore.remaining ≤ 1 ∧
      ((pyTruthy ev.stBefore.reset = true ∧ ev.now < resetVal ev.stBefore ∧
        ev.dur = resetVal ev.stBefore - ev.now + 5 ∧ 6 ≤ ev.dur) ∨
       (¬(pyTruthy ev.stBefore.reset = true ∧ ev.now < resetVal ev.stBefore) ∧
        ev.dur = 1)) := by
  induction l with
  | nil =>
    intro s s0 evs rem h
    rw [checkLoop] at h
    split at h
    · rename_i hgt
      obtain ⟨rfl, rfl, rfl⟩ : s = s0 ∧ [] = evs ∧ [] = rem := by
        simpa using h
      exact ⟨hgt, by simp⟩
    · simp at h
  | cons hd tl ih =>
    obtain ⟨now, p⟩ := hd
    intro s s0 evs rem h
    rw [checkLoop] at h
    split at h
    · rename_i hgt
      obtain ⟨rfl, rfl, rfl⟩ : s = s0 ∧ [] = evs ∧ (now, p) :: tl = rem := by
        simpa using h
      exact ⟨hgt, by simp⟩
    · rename_i hle
      cases hcl : checkLoop (applyPing p) tl with
      | none => rw [hcl] at h; simp at h
      | some val =>
        obtain ⟨s2, evs2, rem2⟩ := val
        rw [hcl] at h
        simp only [Option.some.injEq, Prod.mk.injEq] at h
        obtain ⟨rfl, rfl, rfl⟩ := h
        obtain ⟨h1, h2⟩ := ih (applyPing p) s2 evs2 rem2 hcl
        refine ⟨h1, ?_⟩
        intro ev hev
        rcases List.mem_cons.mp hev with hev | hev
        · subst hev
          dsimp only
          refine ⟨by omega, ?_⟩
          by_cases hc : pyTruthy s.reset = true ∧ now < resetVal s
          · left
            refine ⟨hc.1, hc.2, by rw [if_pos hc], ?_⟩
            rw [if_pos hc]
            omega
          · right
            exact ⟨hc, by rw [if_neg hc]⟩
        · exact h2 ev hev

/-- C1: for every quota state and probe-response sequence,
`TwitterClient.check` never admits a call while tracked remaining ≤ 1
(the state at admission has remaining strictly greater than 1, and the
returned remaining is that value minus exactly 1), and while blocked it
sleeps 1 second before each re-probe when no truthy future reset is
known, and `reset - now + 5` (at least 6) seconds when one is. -/
theorem claim1_check_admission (s s' : QuotaState) (l rem : List (Int × PingResp))
    (evs : List SleepEv) (h : check s l = some (s', evs, rem)) :
    (1 ≤ s'.remaining ∧
      checkLoop s l = some (⟨s'.remaining + 1, s'.reset⟩, evs, rem)) ∧
    ∀ ev ∈ evs, ev.stBefore.remaining ≤ 1 ∧
      ((pyTruthy ev.stBefore.reset = true ∧ ev.now < resetVal ev.stBefore ∧
        ev.dur = resetVal ev.stBefore - ev.now + 5 ∧ 6 ≤ ev.dur) ∨
       (¬(pyTruthy ev.stBefore.reset = true ∧ ev.now < resetVal ev.stBefore) ∧
        ev.dur = 1)) := by
  rw [check] at h
  cases hcl : checkLoop s l with
  | none => rw [hcl] at h; simp at h
  | some val =>
    obtain ⟨s0, evs0, rem0⟩ := val
    rw [hcl] at h
    simp only [Option.some.injEq, Prod.mk.injEq] at h
    obtain ⟨hs', rfl, rfl⟩ := h
    obtain ⟨h1, h2⟩ := checkLoop_spec l s s0 evs0 rem0 hcl
    subst hs'
    dsimp only
    refine ⟨⟨by omega, ?_⟩, h2⟩
    have he : s0.remaining - 1 + 1 = s0.remaining := by omega
    rw [he]

/-- Witness for C1: a run that starts blocked at remaining 0 with no
known reset, sleeps one second, re-probes, and is then admitted at
remaining 100, returning 99. -/
theorem claim1_witness :
    (1 ≤ (99 : Int) ∧
      checkLoop ⟨0, none⟩ [(5, pingA)] =
        some (⟨99 + 1, some 1000⟩, [⟨5, ⟨0, none⟩, 1⟩], [])) ∧
    ∀ ev ∈ [(⟨5, ⟨0, none⟩, 1⟩ : SleepEv)], ev.stBefore.remaining ≤ 1 ∧
      ((pyTruthy ev.stBefore.reset = true ∧ ev.now < resetVal ev.stBefore ∧
        ev.dur = resetVal ev.stBefore - ev.now + 5 ∧ 6 ≤ ev.dur) ∨
       (¬(pyTruthy ev.stBefore.reset = true ∧ ev.now < resetVal ev.stBefore) ∧
        ev.dur = 1)) :=
  claim1_check_admission ⟨0, none⟩ ⟨99, some 1000⟩ [(5, pingA)] []
    [⟨5, ⟨0, none⟩, 1⟩] (by decide)

/-- `check` on a state with more than one remaining call admits
immediately: no sleep, no probe consumed, remaining decremented by 1. -/
theorem check_admit (rm : Int) (re : Option Int) (l : List (Int × PingResp))
    (h : 1 < rm) : check ⟨rm, re⟩ l = some (⟨rm - 1, re⟩, [], l) := by
  cases l with
  | nil => rw [check, checkLoop]; rw [if_pos h]
  | cons hd tl => obtain ⟨a, b⟩ := hd; rw [check, checkLoop]; rw [if_pos h]

/-- Attempt-count bound for `fetchGo`: a returning run with budget `t`
issues between 0 and `2 ^ t - 1` network calls (the doubling comes from
the `except` handler re-running the recursion that already sits inside
the `try` block), and any raised exhaustion error carries the fixed
message naming the URL. -/
theorem fetchGo_bound {α : Type} (resp : Nat → FetchResp α) (url : String) :
    ∀ (t : Nat) (env : Env) (res : FetchOutcome α) (env2 : Env),
    fetchGo resp url t env = some (res, env2) →
    env.calls ≤ env2.calls ∧ env2.calls + 1 ≤ env.calls + 2 ^ t ∧
    ∀ m, res = .failure m →
      m = "unable to fetch " ++ url ++ " - too many tries!" := by
  intro t
  induction t with
  | zero =>
    intro env res env2 h
    rw [fetchGo] at h
    simp only [Option.some.injEq, Prod.mk.injEq] at h
    obtain ⟨rfl, rfl⟩ := h
    refine ⟨le_refl _, by omega, ?_⟩
    intro m hm
    simpa using hm.symm
  | succ t ih =>
    intro env res env2 h
    have hpow : 0 < 2 ^ t := by positivity
    have hpow2 : 2 ^ (t + 1) = 2 ^ t * 2 := pow_succ 2 t
    rw [fetchGo] at h
    split at h
    · simp at h
    · rename_i q evs rem hchk
      split at h
      · rename_i b hr
        simp only [Option.some.injEq, Prod.mk.injEq] at h
        obtain ⟨rfl, rfl⟩ := h
        refine ⟨by dsimp; omega, by dsimp; omega, ?_⟩
        intro m hm
        simp at hm
      · rename_i st hr
        split at h
        · simp at h
        · rename_i b env4 hrec
          simp only [Option.some.injEq, Prod.mk.injEq] at h
          obtain ⟨rfl, rfl⟩ := h
          obtain ⟨a1, a2, _⟩ := ih _ _ _ hrec
          dsimp at a1 a2
          refine ⟨by omega, by omega, ?_⟩
          intro m hm
          simp at hm
        · rename_i m1 env4 hrec
          obtain ⟨a1, a2, _⟩ := ih _ _ _ hrec
          obtain ⟨b1, b2, b3⟩ := ih _ _ _ h
          dsimp at a1 a2
          exact ⟨by omega, by omega, b3⟩
      · rename_i hr
        obtain ⟨a1, a2, a3⟩ := ih _ _ _ h
        dsimp at a1 a2
        exact ⟨by omega, by omega, a3⟩

/-- Counterexample to C2: with every response a non-200 status and a
non-blocking quota, `fetch` (budget 5) issues 31 network calls, not at
most 5: the recursive retry sits inside the `try` block, so the `except`
handler re-runs the whole exhausted recursion at every level. -/
theorem claim2_counterexample :
    callsOf (fetchGo allErr500 "u" 5 env0) = some 31 ∧ ¬(31 ≤ 5) :=
  ⟨by decide, by decide⟩

/-- C2 amended: a returning `fetch` run with the default budget of 5
tries makes at most 31 (= 2^5 - 1) attempts, and when all attempts fail
it raises a single error whose message names the URL only — it does not
carry the last observed status or exception. -/
theorem claim2_attempt_bound {α : Type} (resp : Nat → FetchResp α) (url : String)
    (env : Env) (res : FetchOutcome α) (env2 : Env)
    (h : fetchGo resp url 5 env = some (res, env2)) :
    env2.calls ≤ env.calls + 31 ∧
    ∀ m, res = .failure m →
      m = "unable to fetch " ++ url ++ " - too many tries!" := by
  obtain ⟨h1, h2, h3⟩ := fetchGo_bound resp url 5 env res env2 h
  have h2n : env2.calls + 1 ≤ env.calls + 32 := by norm_num at h2; omega
  exact ⟨by omega, h3⟩

/-- Witness for the amended C2 at a concrete all-exception run: 5
attempts, ending in the fixed URL-naming error. -/
theorem claim2_witness :
    (⟨⟨95, none⟩, [], 5, [1, 1, 1, 1, 1]⟩ : Env).calls ≤ env0.calls + 31 ∧
    ∀ m, (FetchOutcome.failure (α := Nat) "unable to fetch u - too many tries!") =
        .failure m →
      m = "unable to fetch " ++ "u" ++ " - too many tries!" :=
  claim2_attempt_bound allExn "u" env0
    (.failure "unable to fetch u - too many tries!")
    ⟨⟨95, none⟩, [], 5, [1, 1, 1, 1, 1]⟩ (by decide)

/-- Counterexample to C3: a first attempt failing with a transport
exception is retried with no backoff sleep at all — the whole sleep log
of the run is [1, 1] (the two flat politeness delays); the 2-second
backoff the claim requires after the first failed attempt never
happens. -/
theorem claim3_counterexample :
    fetchGo exnThenOk "u" 5 env0 =
      some (.success 7, ⟨⟨98, none⟩, [], 2, [1, 1]⟩) ∧
    ¬((2 : Int) ∈ ([1, 1] : List Int)) :=
  ⟨by decide, by decide⟩

/-- C3 amended: the backoff sleep of `(6 - tries) * 2` seconds happens
only on a non-200 status (a transport exception retries immediately);
given 4 consecutive non-200 failures then a success, with a quota that
never blocks, `fetch` returns the success and its sleep log is
`[1, 2, 1, 4, 1, 6, 1, 8, 1]`: strictly increasing backoffs 2, 4, 6, 8
between the five attempts, each attempt preceded by the flat 1-second
politeness delay. -/
theorem claim3_backoff (b : Nat) (r : Int) (ps : List (Int × PingResp))
    (h : 5 < r) :
    fetchGo (err4ThenOk b) "u" 5 ⟨⟨r, none⟩, ps, 0, []⟩ =
      some (.success b, ⟨⟨r - 5, none⟩, ps, 5, [1, 2, 1, 4, 1, 6, 1, 8, 1]⟩) := by
  have h1 : (1:Int) < r := by omega
  have h2 : (1:Int) < r - 1 := by omega
  have h3 : (1:Int) < r - 1 - 1 := by omega
  have h4 : (1:Int) < r - 1 - 1 - 1 := by omega
  have h5 : (1:Int) < r - 1 - 1 - 1 - 1 := by omega
  simp only [fetchGo, err4ThenOk,
    check_admit r none ps h1, check_admit (r-1) none ps h2,
    check_admit (r-1-1) none ps h3, check_admit (r-1-1-1) none ps h4,
    check_admit (r-1-1-1-1) none ps h5]
  norm_num
  omega

/-- Witness for the amended C3 at remaining 6: the hypothesis 5 < 6
holds and the run produces the 2, 4, 6, 8 backoff log. -/
theorem claim3_witness :
    (5 : Int) < 6 ∧
    fetchGo (err4ThenOk 7) "u" 5 ⟨⟨6, none⟩, [], 0, []⟩ =
      some (.success 7, ⟨⟨6 - 5, none⟩, [], 5, [1, 2, 1, 4, 1, 6, 1, 8, 1]⟩) :=
  ⟨by decide, claim3_backoff 7 6 [] (by decide)⟩

/-- C4: when the fetched page's records recompute a bound equal to the
current `max_id` (cursor fixed point), `search_result` reports an empty
page and the `search` loop stops after that one extra call, for every
remaining fuel: the loop terminates rather than recursing
indefinitely. -/
theorem claim4_fixed_point (supplies : Nat → PageSupply) (q : String)
    (since_id max_id : Option Int) (n k : Nat) (sts : List Int) (envF : Env)
    (lastId : Int)
    (hf : fetchGo (supplies k).resp (search_url q since_id max_id) 5
      ⟨clientInit (supplies k).initPing, (supplies k).checkPings, 0, []⟩ =
      some (.success sts, envF))
    (hl : sts.getLast? = some lastId)
    (hm : max_id = some (lastId + 1)) :
    search supplies q since_id (n + 1) max_id k =
      some ([], [clientInit (supplies k).initPing]) := by
  have hsr : search_result q since_id max_id (supplies k) =
      some (([], max_id), envF) := by
    rw [search_result, hf]
    simp only [search_result_page, new_max_id_of, hl, hm]
    simp
  rw [search, hsr]
  simp

/-- Witness for C4: a page `[12, 9]` fetched against the bound 10
recomputes 9 + 1 = 10, and the loop stops returning no records. -/
theorem claim4_witness :
    search fixedPageSupply "q" none 1 (some 10) 0 =
      some ([], [clientInit (fixedPageSupply 0).initPing]) :=
  claim4_fixed_point fixedPageSupply "q" none (some 10) 0 0 [12, 9]
    ⟨⟨99, some 1000⟩, [], 1, [1]⟩ 9 (by decide) (by decide) (by decide)

/-- Counterexample to C5: on the page `[12, 4]` (ids newest first,
oldest record 4) under bound 100, `search_result` computes the next
bound `some 5` — the oldest identifier plus one — and not the claimed
oldest identifier minus one (`some 3`). -/
theorem claim5_counterexample :
    (search_result_page [12, 4] (some 100)).2 = some 5 ∧
    (search_result_page [12, 4] (some 100)).1 ≠ [] ∧
    some (5 : Int) ≠ some ((4 : Int) - 1) :=
  ⟨by decide, by decide, by decide⟩

/-- C5 amended: for every page returned non-empty by `search_result`,
the next bound is the page's oldest (last-listed) record's identifier
PLUS one; provided the page's records lie strictly below the current
bound, that returned bound is strictly smaller than the current one (the
equal-bound case having been suppressed as an empty page), so the cursor
still strictly decreases across returned pages. -/
theorem claim5_next_bound (page : List Int) (v lastId : Int)
    (hl : page.getLast? = some lastId) (hlt : lastId < v)
    (hne : (search_result_page page (some v)).1 ≠ []) :
    (search_result_page page (some v)).2 = some (lastId + 1) ∧
    lastId + 1 < v := by
  simp only [search_result_page, new_max_id_of, hl] at hne ⊢
  by_cases he : v = lastId + 1
  · simp [he] at hne
  · have hop : (some v : Option Int) = some (lastId + 1) ↔ False := by
      simp [he]
    rw [if_neg (by simp [he])] at hne ⊢
    exact ⟨rfl, by omega⟩

/-- Witness for the amended C5 on the page `[12, 4]` under bound 100:
the returned bound is 5 and 5 < 100. -/
theorem claim5_witness :
    (search_result_page [12, 4] (some 100)).2 = some ((4 : Int) + 1) ∧
    (4 : Int) + 1 < 100 :=
  claim5_next_bound [12, 4] 100 4 (by decide) (by decide) (by decide)

/-- Counterexample to C6: even when the first connection ends
immediately, the `while True` loop of `stream` opens a second connection
— two connections after two loop iterations, not exactly one. -/
theorem claim6_counterexample :
    streamRun emptyConns 2 0 = ([], 2) ∧ (2 : Nat) ≠ 1 :=
  ⟨by decide, by decide⟩

/-- C6 amended: the stream reader reconnects automatically and
unconditionally — after `n` loop iterations it has opened `n`
connections, one per iteration, regardless of how or when each
connection ends (the generator never ends on its own) — while individual
lines that fail JSON parsing are skipped and all parseable lines are
yielded in order. -/
theorem claim6_reconnect :
    (∀ (conns : Nat → List (Option Nat)) (n k : Nat),
      (streamRun conns n k).2 = k + n) ∧
    (∀ l : List (Option Nat), processLines l = l.filterMap id) := by
  constructor
  · intro conns n
    induction n with
    | zero => intro k; rw [streamRun]; simp
    | succ n ih =>
      intro k
      rw [streamRun]
      rcases hsr : streamRun conns n (k + 1) with ⟨rest, k2⟩
      have h2 := ih (k + 1)
      rw [hsr] at h2
      dsimp at h2 ⊢
      omega
  · intro l
    induction l with
    | nil => rw [processLines]; rfl
    | cons hd tl ih =>
      cases hd with
      | none => rw [processLines, ih]; rfl
      | some v => rw [processLines, ih]; rfl

/-- Counterexample to C7: a single transport failure makes
`TwitterClient.hydrate` fail its whole batch after exactly one POST (no
retry), while the executor (`fetch`) given the same single failure
retries and succeeds — so the retry policy is not applied identically to
hydration batch lookups. -/
theorem claim7_counterexample :
    client_hydrate postExn ["1"] env0 = some (none, ⟨⟨99, none⟩, [], 1, []⟩) ∧
    fetchGo exnThenOk "u" 5 env0 =
      some (.success 7, ⟨⟨98, none⟩, [], 2, [1, 1]⟩) :=
  ⟨by decide, by decide⟩

/-- C7 amended: only search page requests go through the 5-try retrying
executor; `TwitterClient.hydrate` performs quota admission and then
exactly one un-retried POST per batch — one network call whether it
succeeds or fails, and a transport failure fails the batch. (Probes are
likewise a single un-retried GET, modelled by `applyPing`.) -/
theorem claim7_hydrate_single_call (post : String → PostResult (List Nat))
    (ids : List String) (env : Env) (r : Option (List Nat)) (env2 : Env)
    (h : client_hydrate post ids env = some (r, env2)) :
    env2.calls = env.calls + 1 ∧
    (post (String.intercalate "," ids) = .exn → r = none) := by
  rw [client_hydrate] at h
  split at h
  · simp at h
  · rename_i q evs rem hchk
    split at h
    · rename_i tweets hp
      simp only [Option.some.injEq, Prod.mk.injEq] at h
      obtain ⟨rfl, rfl⟩ := h
      refine ⟨rfl, ?_⟩
      intro hx
      rw [hp] at hx
      simp at hx
    · rename_i hp
      simp only [Option.some.injEq, Prod.mk.injEq] at h
      obtain ⟨rfl, rfl⟩ := h
      exact ⟨rfl, fun _ => rfl⟩

/-- Witness for the amended C7 at a concrete failing batch: one call
made, batch failed. -/
theorem claim7_witness :
    (⟨⟨99, none⟩, [], 1, []⟩ : Env).calls = env0.calls + 1 ∧
    (postExn (String.intercalate "," ["1"]) = .exn →
      (none : Option (List Nat)) = none) :=
  claim7_hydrate_single_call postExn ["1"] env0 none ⟨⟨99, none⟩, [], 1, []⟩
    (by decide)

/-- The batch sizes produced by the hydration loop depend only on the
pending-batch size and the number of remaining identifiers. -/
theorem hydrate_batches_go_sizes (ids : List String) :
    ∀ acc : List String,
    (hydrate_batches_go acc ids).map List.length =
      batchSizes acc.length ids.length := by
  induction ids with
  | nil =>
    intro acc
    rw [hydrate_batches_go, show ([] : List String).length = 0 from rfl,
      batchSizes]
    split <;> simp
  | cons hd tl ih =>
    intro acc
    rw [hydrate_batches_go, show (hd :: tl).length = tl.length + 1 from rfl,
      batchSizes]
    by_cases hc : acc.length + 1 = 100
    · rw [if_pos (by simpa using hc), if_pos hc]
      simp only [List.map_cons, ih []]
      simp [hc]
    · rw [if_neg (by simpa using hc), if_neg hc]
      rw [ih (acc ++ [hd.trim])]
      simp
/-- Flattening the hydration batches recovers the pending batch followed
by all remaining identifiers, each trimmed, in order. -/
theorem hydrate_batches_go_flatten (ids : List String) :
    ∀ acc : List String,
    (hydrate_batches_go acc ids).flatten = acc ++ ids.map String.trim := by
  induction ids with
  | nil =>
    intro acc
    rw [hydrate_batches_go]
    split
    · simp
    · rename_i hlen
      have : acc = [] := by
        cases acc with
        | nil => rfl
        | cons x xs => simp at hlen
      simp [this]
  | cons hd tl ih =>
    intro acc
    rw [hydrate_batches_go]
    by_cases hc : (acc ++ [hd.trim]).length = 100
    · rw [if_pos hc]
      simp [ih]
    · rw [if_neg hc]
      rw [ih]
      simp

/-- Every batch size is between 1 and 100, and every batch except
possibly the last has size exactly 100. -/
theorem batchSizes_bounds (n : Nat) :
    ∀ a : Nat, a < 100 →
    (∀ x ∈ batchSizes a n, 0 < x ∧ x ≤ 100) ∧
    (∀ x ∈ (batchSizes a n).dropLast, x = 100) := by
  induction n with
  | zero =>
    intro a ha
    rw [batchSizes]
    split
    · rename_i hpos
      constructor
      · intro x hx
        simp at hx
        omega
      · intro x hx
        simp at hx
    · simp
  | succ n ih =>
    intro a ha
    rw [batchSizes]
    by_cases hc : a + 1 = 100
    · rw [if_pos hc]
      obtain ⟨ih1, ih2⟩ := ih 0 (by omega)
      constructor
      · intro x hx
        rcases List.mem_cons.mp hx with rfl | hx
        · omega
        · exact ih1 x hx
      · intro x hx
        cases hbs : batchSizes 0 n with
        | nil => rw [hbs] at hx; simp at hx
        | cons y ys =>
          rw [hbs, List.dropLast_cons₂] at hx
          rcases List.mem_cons.mp hx with rfl | hx2
          · rfl
          · rw [hbs] at ih2
            exact ih2 x hx2
    · rw [if_neg hc]
      exact ih (a + 1) (by omega)

/-- C8: the hydrator trims every identifier and batches them in order
into groups of exactly 100 (only the final batch may be smaller, and no
batch is empty), issuing one comma-joined lookup call per batch; on an
input of 250 identifiers this gives exactly 3 batches of sizes 100, 100,
50 and exactly 3 lookup calls. -/
theorem claim8_hydrator (ids : List String) :
    (hydrate_batches ids).flatten = ids.map String.trim ∧
    (∀ b ∈ hydrate_batches ids, 0 < b.length ∧ b.length ≤ 100) ∧
    (∀ b ∈ (hydrate_batches ids).dropLast, b.length = 100) ∧
    (hydrate_calls ids).length = (hydrate_batches ids).length ∧
    (ids.length = 250 →
      (hydrate_batches ids).map List.length = [100, 100, 50] ∧
      (hydrate_calls ids).length = 3) := by
  have hsz := hydrate_batches_go_sizes ids []
  have hfl := hydrate_batches_go_flatten ids []
  obtain ⟨hb1, hb2⟩ := batchSizes_bounds ids.length 0 (by omega)
  have hbs0 : batchSizes ([] : List String).length ids.length =
      batchSizes 0 ids.length := rfl
  rw [hbs0] at hsz
  refine ⟨by simpa [hydrate_batches] using hfl, ?_, ?_, ?_, ?_⟩
  · intro b hb
    have hmem : b.length ∈ (hydrate_batches ids).map List.length :=
      List.mem_map_of_mem _ hb
    rw [hydrate_batches, hsz] at hmem
    exact hb1 _ hmem
  · intro b hb
    have hmem : b.length ∈ ((hydrate_batches ids).map List.length).dropLast := by
      rw [← List.map_dropLast]
      exact List.mem_map_of_mem _ hb
    rw [hydrate_batches, hsz] at hmem
    exact hb2 _ hmem
  · simp [hydrate_calls]
  · intro h250
    have h1 : (hydrate_batches ids).map List.length = [100, 100, 50] := by
      rw [hydrate_batches, hsz, h250]
      decide
    have h2 : (hydrate_batches ids).length = 3 := by
      have := congrArg List.length h1
      simpa using this
    exact ⟨h1, by simp [hydrate_calls, h2]⟩

/-- Witness for C8 on a concrete 250-identifier input. -/
theorem claim8_witness :
    (hydrate_batches (List.replicate 250 "x")).map List.length =
      [100, 100, 50] :=
  ((claim8_hydrator (List.replicate 250 "x")).2.2.2.2
    (by simp only [List.length_replicate])).1

/-- C9: in every `search` run, the quota state each executed page's
fetch starts from is exactly the state installed by that page's own
fresh `TwitterClient` constructor probe (`__init__` probes before any
fetch) — a function of that page's own probe response only, so no quota
state is carried over from any earlier page; the only datum passed
between pages is the max-id bound. -/
theorem claim9_fresh_client (supplies : Nat → PageSupply) (q : String)
    (since_id : Option Int) :
    ∀ (n : Nat) (max_id : Option Int) (k : Nat) (ys : List Int)
      (qs : List QuotaState),
    search supplies q since_id n max_id k = some (ys, qs) →
    ∀ i (h : i < qs.length),
      qs.get ⟨i, h⟩ = applyPing (supplies (k + i)).initPing := by
  intro n
  induction n with
  | zero =>
    intro max_id k ys qs h
    rw [search] at h
    simp only [Option.some.injEq, Prod.mk.injEq] at h
    obtain ⟨rfl, rfl⟩ := h
    intro i hi
    simp at hi
  | succ n ih =>
    intro max_id k ys qs h
    rw [search] at h
    split at h
    · simp at h
    · rename_i results max_id2 envX hsr
      split at h
      · rename_i hres
        simp only [Option.some.injEq, Prod.mk.injEq] at h
        obtain ⟨rfl, rfl⟩ := h
        intro i hi
        have hi0 : i = 0 := by simp at hi; omega
        subst hi0
        simp [clientInit]
      · rename_i hres
        split at h
        · simp at h
        · rename_i rest qs2 hrec
          simp only [Option.some.injEq, Prod.mk.injEq] at h
          obtain ⟨rfl, rfl⟩ := h
          intro i hi
          cases i with
          | zero => simp [clientInit]
          | succ j =>
            have hj : j < qs2.length := by simpa using hi
            have := ih max_id2 (k + 1) rest qs2 hrec j hj
            have hk : k + (j + 1) = k + 1 + j := by omega
            rw [hk]
            simpa using this

/-- Witness for C9: a one-page run whose page starts from exactly the
quota state of its own constructor probe. -/
theorem claim9_witness :
    List.get [q0] ⟨0, by decide⟩ = applyPing (emptyPageSupply (0 + 0)).initPing :=
  claim9_fresh_client emptyPageSupply "q" none 3 none 0 [] [q0] (by decide)
    0 (by decide)

/-- Membership is preserved by sorted insertion. -/
theorem mem_insertByName (l : List AFile) (f x : AFile) :
    x ∈ insertByName f l ↔ x = f ∨ x ∈ l := by
  induction l with
  | nil => simp [insertByName]
  | cons g rest ih =>
    rw [insertByName]
    split
    · simp [or_comm, or_left_comm]
    · simp [ih]
      tauto

/-- Membership is preserved by the filename sort. -/
theorem mem_sortByName (l : List AFile) (x : AFile) :
    x ∈ sortByName l ↔ x ∈ l := by
  induction l with
  | nil => simp [sortByName]
  | cons g rest ih => simp [sortByName, mem_insertByName, ih]

/-- The code-point order on character lists is reflexive. -/
theorem listLeB_refl (a : List Char) : listLeB a a = true := by
  induction a with
  | nil => rfl
  | cons c cs ih => rw [listLeB]; simp [ih]

/-- The code-point order on character lists is total. -/
theorem listLeB_total (a : List Char) :
    ∀ b, listLeB a b = true ∨ listLeB b a = true := by
  induction a with
  | nil => intro b; left; rfl
  | cons c cs ih =>
    intro b
    cases b with
    | nil => right; rfl
    | cons d ds =>
      rw [listLeB, listLeB]
      by_cases h1 : c.toNat < d.toNat
      · left; rw [if_pos h1]
      · by_cases h2 : d.toNat < c.toNat
        · right; rw [if_pos h2]
        · rw [if_neg h1, if_neg h2, if_neg h2, if_neg h1]
          exact ih ds

/-- The code-point order on character lists is transitive. -/
theorem listLeB_trans (a : List Char) :
    ∀ b c, listLeB a b = true → listLeB b c = true → listLeB a c = true := by
  induction a with
  | nil => intro b c _ _; rfl
  | cons x xs ih =>
    intro b c hab hbc
    cases b with
    | nil => simp [listLeB] at hab
    | cons y ys =>
      cases c with
      | nil => simp [listLeB] at hbc
      | cons z zs =>
        rw [listLeB] at hab hbc ⊢
        by_cases h1 : x.toNat < y.toNat
        · by_cases h2 : y.toNat < z.toNat
          · rw [if_pos (by omega)]
          · by_cases h3 : z.toNat < y.toNat
            · rw [if_neg h2, if_pos h3] at hbc
              exact absurd hbc (by simp)
            · rw [if_pos (by omega)]
        · by_cases h4 : y.toNat < x.toNat
          · rw [if_neg h1, if_pos h4] at hab
            exact absurd hab (by simp)
          · rw [if_neg h1, if_neg h4] at hab
            by_cases h2 : y.toNat < z.toNat
            · rw [if_pos (by omega)]
            · by_cases h3 : z.toNat < y.toNat
              · rw [if_neg h2, if_pos h3] at hbc
                exact absurd hbc (by simp)
              · rw [if_neg h2, if_neg h3] at hbc
                rw [if_neg (by omega), if_neg (by omega)]
                exact ih ys zs hab hbc

/-- Sorted insertion preserves ascending filename order. -/
theorem pairwise_insertByName (l : List AFile) (f : AFile)
    (h : l.Pairwise (fun a b => nameLeB a.name b.name = true)) :
    (insertByName f l).Pairwise (fun a b => nameLeB a.name b.name = true) := by
  induction l with
  | nil => simp [insertByName]
  | cons g rest ih =>
    rw [insertByName]
    obtain ⟨hg, hrest⟩ := List.pairwise_cons.mp h
    split
    · rename_i hle
      refine List.pairwise_cons.mpr ⟨?_, h⟩
      intro y hy
      rcases List.mem_cons.mp hy with rfl | hy
      · exact hle
      · exact listLeB_trans _ _ _ hle (hg y hy)
    · rename_i hnle
      refine List.pairwise_cons.mpr ⟨?_, ih hrest⟩
      intro y hy
      rcases (mem_insertByName rest f y).mp hy with rfl | hy
      · rcases listLeB_total (y.name.data) (g.name.data) with hfg | hgf
        · exact absurd hfg hnle
        · exact hgf
      · exact hg y hy

/-- The filename sort produces an ascending list. -/
theorem pairwise_sortByName (l : List AFile) :
    (sortByName l).Pairwise (fun a b => nameLeB a.name b.name = true) := by
  induction l with
  | nil => simp [sortByName]
  | cons g rest ih => exact pairwise_insertByName _ _ ih

/-- On a descending list, the pop loop returns a member of positive size
that is maximal by name among the positive-size members. -/
theorem popLoop_some (l : List AFile) :
    ∀ f : AFile, l.Pairwise (fun a b => nameLeB b.name a.name = true) →
    popLoop l = some f →
    f ∈ l ∧ 0 < f.size ∧
    ∀ g ∈ l, 0 < g.size → nameLeB g.name f.name = true := by
  induction l with
  | nil => intro f _ h; simp [popLoop] at h
  | cons x rest ih =>
    intro f hp h
    obtain ⟨hx, hrest⟩ := List.pairwise_cons.mp hp
    rw [popLoop] at h
    split at h
    · rename_i hpos
      simp only [Option.some.injEq] at h
      subst h
      refine ⟨List.mem_cons_self _ _, hpos, ?_⟩
      intro g hg _
      rcases List.mem_cons.mp hg with rfl | hg
      · exact listLeB_refl _
      · exact hx g hg
    · rename_i hzero
      obtain ⟨h1, h2, h3⟩ := ih f hrest h
      refine ⟨List.mem_cons_of_mem _ h1, h2, ?_⟩
      intro g hg hgs
      rcases List.mem_cons.mp hg with rfl | hg
      · omega
      · exact h3 g hg hgs

/-- If the pop loop finds nothing, every file in the list has size 0. -/
theorem popLoop_none (l : List AFile) :
    popLoop l = none → ∀ f ∈ l, f.size = 0 := by
  induction l with
  | nil => intro _ f hf; simp at hf
  | cons x rest ih =>
    intro h f hf
    rw [popLoop] at h
    split at h
    · simp at h
    · rename_i hzero
      rcases List.mem_cons.mp hf with rfl | hf
      · omega
      · exact ih h f hf

/-- Reduction of `most_recent_id` once the chosen archive file is
known. -/
theorem most_recent_id_some (jsonParse : String → LineParse) (q : String)
    (dir : List AFile) (f : AFile) (hf : last_archive q dir = some f) :
    most_recent_id jsonParse q dir =
      (if f.line = "" then MRIOutcome.ret none
       else
        match jsonParse f.line with
        | .objWithId i => .ret (some i)
        | _ => .raised) := by
  rw [most_recent_id, hf]

/-- C10: `most_recent_id` raises whenever the chosen archive file's
first line is non-empty but does not JSON-parse to an object carrying
`id_str`; it returns `None` only when no matching file of positive size
exists or the chosen file's first readline is empty; and the chosen file
is always a matching file of positive size whose name is maximal
(lexicographically most recent) among the matching positive-size
files. -/
theorem claim10_resume_planner (jsonParse : String → LineParse) (q : String)
    (dir : List AFile) :
    (∀ f, last_archive q dir = some f → f.line ≠ "" →
      (∀ i, jsonParse f.line ≠ .objWithId i) →
      most_recent_id jsonParse q dir = .raised) ∧
    (most_recent_id jsonParse q dir = .ret none →
      (∀ f ∈ dir, matches_archive_pattern q f.name = true → f.size = 0) ∨
      (∃ f, last_archive q dir = some f ∧ f.line = "")) ∧
    (∀ f, last_archive q dir = some f →
      matches_archive_pattern q f.name = true ∧ 0 < f.size ∧
      ∀ g ∈ dir, matches_archive_pattern q g.name = true → 0 < g.size →
        nameLeB g.name f.name = true) := by
  refine ⟨?_, ?_, ?_⟩
  · intro f hf hline hparse
    rw [most_recent_id_some jsonParse q dir f hf, if_neg hline]
    cases hp : jsonParse f.line with
    | notJson => rfl
    | objWithId i => exact absurd hp (hparse i)
    | noIdStr => rfl
  · intro h
    cases hla : last_archive q dir with
    | none =>
      left
      intro f hf hm
      rw [last_archive] at hla
      have hall := popLoop_none _ hla
      have : f ∈ (sortByName
          (dir.filter (fun g => matches_archive_pattern q g.name))).reverse := by
        rw [List.mem_reverse, mem_sortByName, List.mem_filter]
        exact ⟨hf, hm⟩
      exact hall f this
    | some f =>
      right
      refine ⟨f, rfl, ?_⟩
      rw [most_recent_id_some jsonParse q dir f hla] at h
      by_cases hline : f.line = ""
      · exact hline
      · rw [if_neg hline] at h
        cases hp : jsonParse f.line with
        | notJson => rw [hp] at h; simp at h
        | objWithId i => rw [hp] at h; simp at h
        | noIdStr => rw [hp] at h; simp at h
  · intro f hf
    rw [last_archive] at hf
    have hdesc : ((sortByName
        (dir.filter (fun g => matches_archive_pattern q g.name))).reverse).Pairwise
        (fun a b => nameLeB b.name a.name = true) := by
      rw [List.pairwise_reverse]
      exact pairwise_sortByName _
    obtain ⟨h1, h2, h3⟩ := popLoop_some _ f hdesc hf
    rw [List.mem_reverse, mem_sortByName, List.mem_filter] at h1
    refine ⟨h1.2, h2, ?_⟩
    intro g hg hgm hgs
    refine h3 g ?_ hgs
    rw [List.mem_reverse, mem_sortByName, List.mem_filter]
    exact ⟨hg, hgm⟩

/-- Witness for C10: in a directory whose newest matching file is empty
and whose next file's first line is non-empty but not JSON, the resume
planner raises. -/
theorem claim10_witness :
    most_recent_id parseNoJson "q" dir10 = .raised :=
  (claim10_resume_planner parseNoJson "q" dir10).1 f10 (by decide)
    (by decide) (fun i h => LineParse.noConfusion h)

end Twarc
